import Mathlib

/-! # Verification of `json-typescript-decoder` (src/src/index.ts)

A shallow embedding of the generator in `src/index.ts`: the idempotent file
writer `writeFilePromise`, the orchestrator `generate`, the name resolver
`toSafeString` (lodash `upperFirst ∘ camelCase`), the mode-specific templates,
and the runtime semantics of the generated decode functions.

The filesystem is modelled as an association list from paths to nodes, and
every run additionally produces a trace of I/O events so that ordering and
"physical write" claims can be stated.
-/

namespace JsonTsDecoder

/-- A filesystem node: a regular file with byte content (modelled as a
string, since the writer builds its buffer from a UTF-8 string), or a
directory. -/
inductive FsNode where
  | file (content : String)
  | dir
deriving DecidableEq, Repr

/-- The filesystem: a finite map from absolute paths to nodes, as an
association list (later entries shadowed by `fsSet`). -/
abbrev FS := List (String × FsNode)

/-- Look a path up in the filesystem. -/
def fsLookup (fs : FS) (p : String) : Option FsNode :=
  match fs with
  | [] => none
  | (q, n) :: rest => if q = p then some n else fsLookup rest p

/-- Set a path to a node (create or overwrite). -/
def fsSet (fs : FS) (p : String) (n : FsNode) : FS :=
  match fs with
  | [] => [(p, n)]
  | (q, m) :: rest => if q = p then (q, n) :: rest else (q, m) :: fsSet rest p n

/-- Model of `existsSync`. -/
def existsSyncFs (fs : FS) (p : String) : Bool :=
  (fsLookup fs p).isSome

/-- Model of `lstatSync(p).isDirectory()` (the caller guarantees `p` exists). -/
def isDirectoryFs (fs : FS) (p : String) : Bool :=
  match fsLookup fs p with
  | some FsNode.dir => true
  | _ => false

/-- Observable I/O events of a run.  `writeCallEv` marks an invocation of the
writer (`writeFilePromise`), `physWriteEv` an actual `fs.writeFile` (the
event whose absence leaves bytes, modification time and directory-watch
events untouched), `mkdirEv` a `mkdirSync`. -/
inductive Ev where
  | mkdirEv (path : String)
  | writeCallEv (path : String)
  | physWriteEv (path : String) (data : String)
deriving DecidableEq, Repr

/-- The path an event touches. -/
def Ev.path : Ev → String
  | .mkdirEv p => p
  | .writeCallEv p => p
  | .physWriteEv p _ => p

/-- Is this event a physical write? -/
def Ev.isPhysWrite : Ev → Bool
  | .physWriteEv _ _ => true
  | _ => false

/-- The physical writes of a trace. -/
def physWrites (tr : List Ev) : List Ev :=
  tr.filter Ev.isPhysWrite

/--
Model of `writeFilePromise` (src/index.ts lines 34–54): if the file exists, its
content is read and compared with the candidate buffer; on a byte-identical
match the promise resolves without writing (no compile events in watch
mode); otherwise `writeFile` stores the data.  Reading an existing path that
is a directory fails (`readFileSync` raises, rejecting the promise), which
we model as an error.  Returns the new filesystem, the event trace of the
call, and the error if any.
-/
def writeFilePromise (fs : FS) (file : String) (data : String) :
    FS × List Ev × Option String :=
  match fsLookup fs file with
  | some (FsNode.file c) =>
      if c = data then
        (fs, [Ev.writeCallEv file], none)
      else
        (fsSet fs file (FsNode.file data), [Ev.writeCallEv file, Ev.physWriteEv file data], none)
  | some FsNode.dir =>
      (fs, [Ev.writeCallEv file], some ("EISDIR: illegal operation on a directory, read " ++ file))
  | none =>
      (fsSet fs file (FsNode.file data), [Ev.writeCallEv file, Ev.physWriteEv file data], none)

/-- Basic lookup/set lemma for the association-list filesystem. -/
theorem fsLookup_fsSet (fs : FS) (p q : String) (n : FsNode) :
    fsLookup (fsSet fs p n) q = if p = q then some n else fsLookup fs q := by
  induction fs with
  | nil =>
      by_cases h : p = q <;> simp [fsSet, fsLookup, h]
  | cons hd tl ih =>
      obtain ⟨r, m⟩ := hd
      by_cases hrp : r = p
      · subst hrp
        by_cases hq : r = q <;> simp [fsSet, fsLookup, hq, ih]
      · by_cases hq : r = q
        · subst hq
          have : ¬ p = r := fun h => hrp h.symm
          simp [fsSet, fsLookup, hrp, this]
        · simp [fsSet, fsLookup, hrp, hq, ih]

/--
Claim C2, counterexample.  The claim says calling the writer twice with
identical content performs *exactly one* physical write, for every path and
content.  When the file already holds the identical bytes before the first
call, neither call writes: zero physical writes, not one.  Concretely, with
a filesystem holding `f ↦ "x"`, two calls of `writeFilePromise f "x"`
produce a combined trace with no physical write.
-/
theorem writeFilePromise_twice_cex :
    (physWrites ((writeFilePromise [("f", FsNode.file "x")] "f" "x").2.1 ++
      (writeFilePromise (writeFilePromise [("f", FsNode.file "x")] "f" "x").1 "f" "x").2.1)).length
      ≠ 1 := by
  decide

/--
Claim C2, amended.  For every filesystem, path and content, provided the path
is not an existing directory: (a) if the file exists with byte-identical
content, the call completes as a no-op — filesystem unchanged (prior bytes
kept) and no physical write event (so no modification-time change);
(b) otherwise the call stores the content with exactly one physical write;
(c) a second call with the same content is always a no-op, so two calls
perform *at most* one physical write — exactly one precisely when the path
did not already hold the identical content.
-/
theorem writeFilePromise_idempotent (fs : FS) (f d : String)
    (h : fsLookup fs f ≠ some FsNode.dir) :
    (fsLookup fs f = some (FsNode.file d) →
        (writeFilePromise fs f d).1 = fs ∧
        physWrites (writeFilePromise fs f d).2.1 = [] ∧
        (writeFilePromise fs f d).2.2 = none) ∧
    (fsLookup fs f ≠ some (FsNode.file d) →
        fsLookup (writeFilePromise fs f d).1 f = some (FsNode.file d) ∧
        physWrites (writeFilePromise fs f d).2.1 = [Ev.physWriteEv f d] ∧
        (writeFilePromise fs f d).2.2 = none) ∧
    (writeFilePromise (writeFilePromise fs f d).1 f d).1 = (writeFilePromise fs f d).1 ∧
    physWrites (writeFilePromise (writeFilePromise fs f d).1 f d).2.1 = [] ∧
    (physWrites ((writeFilePromise fs f d).2.1 ++
        (writeFilePromise (writeFilePromise fs f d).1 f d).2.1)).length ≤ 1 ∧
    ((physWrites ((writeFilePromise fs f d).2.1 ++
        (writeFilePromise (writeFilePromise fs f d).1 f d).2.1)).length = 1 ↔
      fsLookup fs f ≠ some (FsNode.file d)) := by
  rcases hc : fsLookup fs f with _ | n
  · simp [writeFilePromise, hc, fsLookup_fsSet, physWrites, Ev.isPhysWrite]
  · cases n with
    | file c =>
        by_cases hcd : c = d
        · subst hcd
          simp [writeFilePromise, hc, physWrites, Ev.isPhysWrite]
        · have hne : fsLookup fs f ≠ some (FsNode.file d) := by
            rw [hc]; intro hEq; exact hcd (by injection hEq with h1; injection h1)
          simp [writeFilePromise, hc, hcd, fsLookup_fsSet, physWrites, Ev.isPhysWrite, hne]
    | dir => exact absurd hc h

/-- Claim C2, witness.  The amended theorem applied at a concrete input: on an
empty filesystem, the second identical write is a no-op. -/
theorem writeFilePromise_idempotent_witness :
    (writeFilePromise (writeFilePromise [] "a" "x").1 "a" "x").1 =
      (writeFilePromise [] "a" "x").1 ∧
    physWrites (writeFilePromise (writeFilePromise [] "a" "x").1 "a" "x").2.1 = [] :=
  ⟨(writeFilePromise_idempotent [] "a" "x" (by decide)).2.2.1,
   (writeFilePromise_idempotent [] "a" "x" (by decide)).2.2.2.1⟩

/-! ## Name resolution: lodash `camelCase` / `upperFirst` (ASCII model)

`toSafeString` (src/index.ts lines 137–139) is
`upperFirst(camelCase(string))` from lodash.  We model the ASCII behaviour
of lodash's word splitter: if the input has a "complex" word (camel humps,
letter/digit boundaries or punctuation — lodash `reHasUnicodeWord`) the
camel-aware splitter is used, otherwise words are maximal alphanumeric
runs.  Unicode-only refinements of lodash (ordinal suffixes, emoji,
accented letters) are outside the model. -/

/-- lodash `reHasUnicodeWord` on ASCII text: a lower–upper transition, two
uppers then a lower, a digit next to a letter, or any character other than
letters, digits and the space. -/
def hasComplexWord : List Char → Bool
  | [] => false
  | c :: rest =>
    (!(c.isAlphanum || c = ' ')) ||
    (match rest with
     | [] => false
     | c₂ :: rest₂ =>
       (c.isLower && c₂.isUpper) ||
       (c.isDigit && (c₂.isUpper || c₂.isLower)) ||
       ((c.isUpper || c.isLower) && c₂.isDigit) ||
       (match rest₂ with
        | c₃ :: _ => c.isUpper && c₂.isUpper && c₃.isLower
        | [] => false)) ||
    hasComplexWord rest

/-- lodash `asciiWords`: maximal runs of alphanumeric characters.  The
accumulator holds the current word reversed. -/
def asciiWordsGo : List Char → List Char → List (List Char)
  | [], acc => if acc = [] then [] else [acc.reverse]
  | c :: rest, acc =>
    if c.isAlphanum then asciiWordsGo rest (c :: acc)
    else if acc = [] then asciiWordsGo rest []
    else acc.reverse :: asciiWordsGo rest []

/-- Kind of the token being scanned by the camel-aware splitter: an
all-uppercase run, a token already in its lowercase tail, or a digit run. -/
inductive WKind where
  | upperRun
  | lowerTail
  | digitRun
deriving DecidableEq, Repr

/-- Emit the pending token, if any. -/
def flushTok : Option (List Char × WKind) → List (List Char)
  | none => []
  | some (tok, _) => [tok.reverse]

/-- lodash `unicodeWords` restricted to ASCII: splits at camel humps
(`fooBar` → `foo`,`Bar`; `FOOBar` → `FOO`,`Bar`), at letter/digit
boundaries (`foo2bar` → `foo`,`2`,`bar`) and at non-alphanumerics.  The
pending token is kept reversed. -/
def complexGo : List Char → Option (List Char × WKind) → List (List Char)
  | [], st => flushTok st
  | c :: rest, st =>
    if c.isUpper then
      match st with
      | some (tok, WKind.upperRun) => complexGo rest (some (c :: tok, WKind.upperRun))
      | some (tok, _) => tok.reverse :: complexGo rest (some ([c], WKind.upperRun))
      | none => complexGo rest (some ([c], WKind.upperRun))
    else if c.isLower then
      match st with
      | some ([u], WKind.upperRun) => complexGo rest (some ([c, u], WKind.lowerTail))
      | some (u :: us, WKind.upperRun) =>
          us.reverse :: complexGo rest (some ([c, u], WKind.lowerTail))
      | some ([], WKind.upperRun) => complexGo rest (some ([c], WKind.lowerTail))
      | some (tok, WKind.lowerTail) => complexGo rest (some (c :: tok, WKind.lowerTail))
      | some (tok, WKind.digitRun) => tok.reverse :: complexGo rest (some ([c], WKind.lowerTail))
      | none => complexGo rest (some ([c], WKind.lowerTail))
    else if c.isDigit then
      match st with
      | some (tok, WKind.digitRun) => complexGo rest (some (c :: tok, WKind.digitRun))
      | some (tok, _) => tok.reverse :: complexGo rest (some ([c], WKind.digitRun))
      | none => complexGo rest (some ([c], WKind.digitRun))
    else
      flushTok st ++ complexGo rest none

/-- lodash `words` (no custom pattern): camel-aware splitting when the text
has a complex word, plain alphanumeric runs otherwise. -/
def wordsOf (l : List Char) : List (List Char) :=
  if hasComplexWord l then complexGo l none else asciiWordsGo l []

/-- lodash `capitalize`: first character uppercased, rest lowercased. -/
def capitalizeWord : List Char → List Char
  | [] => []
  | c :: rest => c.toLower.toUpper :: rest.map Char.toLower

/-- lodash `camelCase`: apostrophes deleted, then the first word lowercased
and every later word capitalized, all concatenated. -/
def camelCase (s : String) : String :=
  match wordsOf (s.data.filter (fun c => c ≠ Char.ofNat 39)) with
  | [] => ""
  | w :: ws => ⟨w.map Char.toLower ++ (ws.map capitalizeWord).flatten⟩

/-- lodash `upperFirst`: first character uppercased, rest untouched. -/
def upperFirst (s : String) : String :=
  match s.data with
  | [] => ""
  | c :: rest => ⟨c.toUpper :: rest⟩

/-- Model of `toSafeString` (src/index.ts lines 137–139): PascalCase conversion. -/
def toSafeString (s : String) : String :=
  upperFirst (camelCase s)

/-- Name resolution for one definition (src/index.ts line 94):
`toSafeString(definition.title || definitionKey)`.  JavaScript `||` falls
through on every falsy value, so an *empty* title is skipped just like an
absent one. -/
def resolveName (definitionKey : String) (title : Option String) : String :=
  toSafeString (match title with
    | some t => if t = "" then definitionKey else t
    | none => definitionKey)

/-- Helper: `Char.toUpper` never yields a lowercase letter. -/
theorem toUpper_not_isLower (c : Char) : (Char.toUpper c).isLower = false := by
  have hle : ∀ a b : UInt32, (a ≤ b) ↔ (a.toNat ≤ b.toNat) := fun a b => Iff.rfl
  have h97 : (97 : UInt32).toNat = 97 := by decide
  have h122 : (122 : UInt32).toNat = 122 := by decide
  have htn : Char.toNat c = c.val.toNat := rfl
  unfold Char.toUpper
  by_cases h : c.toNat ≥ 97 ∧ c.toNat ≤ 122
  · rw [if_pos h]
    have hv : (Char.toNat c - 32).isValidChar := Or.inl (by omega)
    rw [Char.ofNat, dif_pos hv]
    have hval : (Char.ofNatAux (Char.toNat c - 32) hv).val.toNat = Char.toNat c - 32 := rfl
    unfold Char.isLower
    simp only [Bool.and_eq_false_iff, decide_eq_false_iff_not, ge_iff_le, hle, hval, h97, h122]
    left; omega
  · rw [if_neg h]
    unfold Char.isLower
    simp only [Bool.and_eq_false_iff, decide_eq_false_iff_not, ge_iff_le, hle, h97, h122]
    rw [htn] at h
    omega

/-- The first character of `upperFirst s`, when there is one, is never a
lowercase letter. -/
theorem upperFirst_head_not_lower (s : String) (c : Char) (cs : List Char)
    (h : (upperFirst s).data = c :: cs) : c.isLower = false := by
  rcases hs : s.data with _ | ⟨d, rest⟩ <;> simp [upperFirst, hs] at h
  rcases h with ⟨hc, _⟩
  rw [← hc]
  exact toUpper_not_isLower d

/--
Claim C4, counterexample.  The claim says the title is used whenever it is
*present*.  JavaScript `definition.title || definitionKey` falls through on
the empty string, which is present but falsy: for a definition with key
`"foo"` and title `""`, the code derives `"Foo"` from the key, not
`toSafeString "" = ""` from the title.
-/
theorem resolveName_empty_title_cex :
    resolveName "foo" (some "") ≠ toSafeString "" := by
  decide

/--
Claim C4, amended.  The canonical name is a pure, total function of the
definition's title and key (a Lean function: identical on every run over
the same input).  The title is used when present *and non-empty* (JS
truthiness), otherwise the key; the chosen string is converted to
PascalCase by `toSafeString` — in particular the resulting identifier never
starts with a lowercase letter.
-/
theorem resolveName_spec (key : String) (title : Option String) :
    (∀ t, title = some t → t ≠ "" → resolveName key title = toSafeString t) ∧
    ((title = none ∨ title = some "") → resolveName key title = toSafeString key) ∧
    (∀ c cs, (resolveName key title).data = c :: cs → c.isLower = false) := by
  refine ⟨?_, ?_, ?_⟩
  · intro t ht hne
    subst ht
    simp [resolveName, hne]
  · intro h
    rcases h with h | h <;> subst h <;> simp [resolveName]
  · intro c cs h
    exact upperFirst_head_not_lower _ c cs h

/-- Claim C4, witness.  The amended theorem at a concrete input: a non-empty
title wins over the key and is PascalCased. -/
theorem resolveName_spec_witness :
    resolveName "foo_bar" (some "my title") = toSafeString "my title" :=
  (resolveName_spec "foo_bar" (some "my title")).1 "my title" rfl (by decide)

/-! ## Runtime semantics of the generated decode functions

The generated module (templates at src/index.ts lines 149–207) defines, for
each definition, a decode function over arbitrary JSON values.  JSON values
are kept abstract as a type parameter `V`; a validator maps a value to an
outcome: accepted, or rejected with ajv's structured error list (which the
generated code reads from `validator.errors`, a possibly-null field —
hence the `Option`). -/

/-- One entry of ajv's structured error list, as the generated code reads
it: `error.dataPath` and `error.message`. -/
structure AjvError where
  dataPath : String
  message : String
deriving DecidableEq, Repr

/-- Outcome of running a compiled validator on one value. -/
inductive ValidatorOutcome where
  | valid
  | invalid (errors : Option (List AjvError))
deriving DecidableEq, Repr

/-- A validator function, as seen by a decode function. -/
abbrev Validator (V : Type) := V → ValidatorOutcome

/-- Result of a generated decode function: the input value returned typed,
or a thrown `<decoderName>Error` carrying the message and the original
offending value (its `json` field). -/
inductive DecodeResult (V : Type) where
  | ok (value : V)
  | thrown (message : String) (json : V)
deriving DecidableEq, Repr

/-- JavaScript `String.prototype.trim` (ASCII whitespace model): strip
leading and trailing whitespace. -/
def trimString (s : String) : String :=
  ⟨((s.data.dropWhile Char.isWhitespace).reverse.dropWhile Char.isWhitespace).reverse⟩

/-- One error rendered by the generated code (src/index.ts lines 177 and
198): `` `${error.dataPath} ${error.message}`.trim() ``. -/
def renderAjvError (e : AjvError) : String :=
  trimString (e.dataPath ++ " " ++ e.message)

/-- The error message the generated code composes:
`errors.map(render).join(', ') || 'unknown'` — the JS `||` falls back on
the empty (falsy) joined string. -/
def errorMessageOf (errors : List AjvError) : String :=
  let joined := String.intercalate ", " (errors.map renderAjvError)
  if joined = "" then "unknown" else joined

/--
Model of the validation check shared by both generated decode bodies
(src/index.ts lines 175–181 packed at 196–202): on a rejected value read
`validator.errors || []`, compose the message, and throw
`<decoderName>Error` with the message and the offending value; on an
accepted value return the value unchanged.
-/
def runValidatorCheck {V : Type} (dataPath : String)
    (outcome : ValidatorOutcome) (json : V) : DecodeResult V :=
  match outcome with
  | ValidatorOutcome.valid => DecodeResult.ok json
  | ValidatorOutcome.invalid errs =>
      DecodeResult.thrown
        ("Error validating " ++ dataPath ++ ": " ++ errorMessageOf (errs.getD [])) json

/-- Modelled from the claim's words (C3): each error rendered exactly as
`<path> <message>`, with no trimming.  To be compared with the source's
`renderAjvError`. -/
def renderAjvErrorClaimed (e : AjvError) : String :=
  e.dataPath ++ " " ++ e.message

/--
Claim C3, counterexample.  ajv reports root-level errors with an empty
`dataPath`.  For such an error the generated code's `.trim()` drops the
leading space, so the message is *not* the claim's `<path> <message>`
rendering: with the single error `{dataPath: "", message: "is required"}`
the thrown message is `Error validating Foo: is required`, not
`Error validating Foo:  is required`.
-/
theorem decode_error_message_cex :
    runValidatorCheck "Foo" (ValidatorOutcome.invalid (some [⟨"", "is required"⟩])) (0 : Nat) ≠
      DecodeResult.thrown ("Error validating Foo: " ++
        String.intercalate ", " ([AjvError.mk "" "is required"].map renderAjvErrorClaimed))
        (0 : Nat) := by
  decide

/--
Claim C3, amended.  For every decode function (packed or unpacked — both
generated bodies run the same check) and every input: on an accepted value
the decode function returns the same value unchanged; on a rejected value
it throws an error carrying (b) the original offending value and (a) a
message composed from the validator's error list, each error rendered as
`<path> <message>` *trimmed of surrounding whitespace* and joined by `, `,
falling back to the literal `unknown` when the joined rendering is empty —
in particular when the error list is empty or null.
-/
theorem decode_error_spec {V : Type} (dataPath : String) (validator : Validator V) (json : V) :
    (validator json = ValidatorOutcome.valid →
        runValidatorCheck dataPath (validator json) json = DecodeResult.ok json) ∧
    (∀ errs, validator json = ValidatorOutcome.invalid errs →
        runValidatorCheck dataPath (validator json) json =
          DecodeResult.thrown ("Error validating " ++ dataPath ++ ": " ++
            (if String.intercalate ", "
                ((errs.getD []).map (fun e => trimString (e.dataPath ++ " " ++ e.message))) = ""
             then "unknown"
             else String.intercalate ", "
                ((errs.getD []).map (fun e => trimString (e.dataPath ++ " " ++ e.message))))) json) := by
  constructor
  · intro h
    rw [h]
    rfl
  · intro errs h
    rw [h]
    rfl

/-- Claim C3, witness.  The amended theorem at a concrete rejected input with
one root-level and one nested error. -/
theorem decode_error_spec_witness :
    runValidatorCheck "Foo"
        ((fun _ => ValidatorOutcome.invalid
            (some [⟨"", "is required"⟩, ⟨".a", "should be string"⟩])) (7 : Nat)) 7 =
      DecodeResult.thrown
        ("Error validating Foo: " ++
          (if String.intercalate ", "
              (([⟨"", "is required"⟩, ⟨".a", "should be string"⟩] : List AjvError).map
                (fun e => trimString (e.dataPath ++ " " ++ e.message))) = ""
           then "unknown"
           else String.intercalate ", "
              (([⟨"", "is required"⟩, ⟨".a", "should be string"⟩] : List AjvError).map
                (fun e => trimString (e.dataPath ++ " " ++ e.message))))) 7 :=
  (decode_error_spec "Foo"
      (fun _ => ValidatorOutcome.invalid
        (some [⟨"", "is required"⟩, ⟨".a", "should be string"⟩])) (7 : Nat)).2
    (some [⟨"", "is required"⟩, ⟨".a", "should be string"⟩]) rfl

/-! ## Unpacked mode: lazy engine and per-decoder memoization

State machine of the module generated by `templateNoPack` (src/index.ts
lines 149–185): module-level `let ajv` set by `lazyAjv()` on first need,
and one `let validator` per decode closure, assigned from
`` lazyAjv().getSchema(`schema#/definitions/${dataPath}`) `` whenever the
closure runs while `validator` is falsy.  `mk` stands for
`new Ajv(...); ajv.addSchema(schema, 'schema')` followed by `getSchema`: a
map from schema refs to validators, returning `none` where `getSchema`
returns `undefined` (an unresolvable ref).  That case is reachable from
the generator itself: the registry entry (`decoderNoPack`, line 146)
passes the *canonical name* as `dataPath`, while the embedded schema keys
its definitions by the original definition *key* (key `foo`, name `Foo`),
so the ref misses whenever the two differ.  An `undefined` result is
assigned to `validator` but stays falsy, so the `if (!validator)` guard
resolves again on every later call, and `validator(json)` then raises a
TypeError (a `none` call outcome).  Engine constructions are observable
through the `engineBuilds` counter and each `getSchema` call through the
`resolutions` log; closures are keyed by their `dataPath`. -/

/-- The schema ref a decode function resolves (generated code line 172):
`schema#/definitions/<dataPath>`. -/
def schemaRef (dataPath : String) : String :=
  "schema#/definitions/" ++ dataPath

/-- State of the generated (unpacked) module.  `memo` holds only the
truthy (successfully resolved) validators: a falsy `validator` does not
pass the `if (!validator)` guard, so it is never effectively cached. -/
structure NoPackState (V : Type) where
  engine : Option (String → Option (Validator V))
  engineBuilds : Nat
  memo : List (String × Validator V)
  resolutions : List String

/-- The module right after loading: no engine, nothing resolved. -/
def initNoPackState (V : Type) : NoPackState V :=
  ⟨none, 0, [], []⟩

/-- Lookup in the memoized-validator table. -/
def memoLookup {V : Type} : List (String × Validator V) → String → Option (Validator V)
  | [], _ => none
  | (k, v) :: rest, q => if k = q then some v else memoLookup rest q

/-- Model of `lazyAjv()` (generated code lines 158–165): build the engine
if absent, else reuse. -/
def lazyAjvStep {V : Type} (mk : String → Option (Validator V)) (s : NoPackState V) :
    (String → Option (Validator V)) × NoPackState V :=
  match s.engine with
  | some e => (e, s)
  | none => (mk, { s with engine := some mk, engineBuilds := s.engineBuilds + 1 })

/-- One call of the decode function for `dataPath` (generated code, lines
168–183 of src/index.ts): with no truthy cached validator, resolve via the
lazy engine; a successful resolution is cached and run; an `undefined` one
is assigned but stays falsy — not cached — and invoking it raises a
TypeError (the `none` outcome). -/
def callDecodeNoPack {V : Type} (mk : String → Option (Validator V)) (dataPath : String)
    (s : NoPackState V) (json : V) : NoPackState V × Option (DecodeResult V) :=
  match memoLookup s.memo dataPath with
  | some validator => (s, some (runValidatorCheck dataPath (validator json) json))
  | none =>
      match lazyAjvStep mk s with
      | (engine, s₁) =>
        match engine (schemaRef dataPath) with
        | some validator =>
            ({ s₁ with memo := (dataPath, validator) :: s₁.memo,
                       resolutions := s₁.resolutions ++ [dataPath] },
              some (runValidatorCheck dataPath (validator json) json))
        | none =>
            ({ s₁ with resolutions := s₁.resolutions ++ [dataPath] }, none)

/-- Run a sequence of decode calls against the module state. -/
def runCalls {V : Type} (mk : String → Option (Validator V)) :
    NoPackState V → List (String × V) → NoPackState V
  | s, [] => s
  | s, (dp, j) :: rest => runCalls mk (callDecodeNoPack mk dp s j).1 rest

/-- An engine as `new Ajv(); addSchema(schema, 'schema')` produces for the
embedded document `{definitions: {foo: ...}}`: `getSchema` resolves the
ref of the definition key `foo` and nothing else.  The canonical name of
that definition is `Foo`, which is what the generated registry passes as
`dataPath`. -/
def fooKeyEngine : String → Option (Validator Nat) :=
  fun r => if r = schemaRef "foo" then some (fun _ => ValidatorOutcome.valid) else none

/-- Invariant of the module state: the build counter tracks the engine
flag, the engine (once built) is the factory's, a *resolvable* path is
logged at most once and exactly when memoized, and an *unresolvable* path
is never memoized. -/
def NoPackInv {V : Type} (mk : String → Option (Validator V)) (s : NoPackState V) : Prop :=
  s.engineBuilds = (if s.engine.isSome then 1 else 0) ∧
  (s.engine.isSome ↔ s.resolutions ≠ []) ∧
  (∀ e, s.engine = some e → e = mk) ∧
  (∀ p, (mk (schemaRef p)).isSome →
      s.resolutions.count p ≤ 1 ∧ (p ∈ s.resolutions ↔ (memoLookup s.memo p).isSome)) ∧
  (∀ p, mk (schemaRef p) = none → memoLookup s.memo p = none)

theorem noPackInv_init {V : Type} (mk : String → Option (Validator V)) :
    NoPackInv mk (initNoPackState V) := by
  refine ⟨rfl, by simp [initNoPackState], by simp [initNoPackState], ?_, ?_⟩
  · intro p _
    simp [initNoPackState, memoLookup]
  · intro p _
    simp [initNoPackState, memoLookup]

/-- Characterization of one decode call's state transition (given the
engine, when built, is the factory's): a memo hit leaves the state
untouched; a memo miss builds the engine if absent, always logs the
resolution, and caches the validator exactly when the ref resolves. -/
theorem callDecode_next {V : Type} (mk : String → Option (Validator V)) (dp : String)
    (s : NoPackState V) (j : V) (hengine : ∀ e, s.engine = some e → e = mk) :
    ((callDecodeNoPack mk dp s j).1 = s ∧ (memoLookup s.memo dp).isSome) ∨
    (memoLookup s.memo dp = none ∧
      (callDecodeNoPack mk dp s j).1.engine = some mk ∧
      (callDecodeNoPack mk dp s j).1.engineBuilds =
        (if s.engine.isSome then s.engineBuilds else s.engineBuilds + 1) ∧
      (callDecodeNoPack mk dp s j).1.resolutions = s.resolutions ++ [dp] ∧
      (callDecodeNoPack mk dp s j).1.memo =
        (match mk (schemaRef dp) with
         | some w => (dp, w) :: s.memo
         | none => s.memo)) := by
  unfold callDecodeNoPack lazyAjvStep
  rcases hm : memoLookup s.memo dp with _ | v
  · right
    rcases he : s.engine with _ | e
    · rcases hres : mk (schemaRef dp) with _ | w <;> simp [hres]
    · have he' : s.engine = some mk := by rw [he, hengine e he]
      simp only [he']
      rw [hengine e he]
      rcases hres : mk (schemaRef dp) with _ | w <;> simp [hres, he']
  · left
    simp

theorem noPackInv_step {V : Type} (mk : String → Option (Validator V)) (dp : String)
    (s : NoPackState V) (j : V) (h : NoPackInv mk s) :
    NoPackInv mk (callDecodeNoPack mk dp s j).1 := by
  obtain ⟨h1, h2, h3, h4, h5⟩ := h
  rcases callDecode_next mk dp s j h3 with ⟨heq, _⟩ | ⟨hm, he, hb, hr, hmm⟩
  · rw [heq]
    exact ⟨h1, h2, h3, h4, h5⟩
  · refine ⟨?_, ?_, ?_, ?_, ?_⟩
    · rw [hb, he]
      rcases hse : s.engine with _ | e
      · simp [hse] at h1
        simp [h1]
      · simp [hse] at h1
        simp [h1]
    · rw [he, hr]
      simp
    · intro e h'
      rw [he] at h'
      cases h'
      rfl
    · intro p hp
      obtain ⟨hc, hmemIff⟩ := h4 p hp
      constructor
      · rw [hr, List.count_append]
        by_cases hpd : p = dp
        · subst hpd
          have hnotin : p ∉ s.resolutions := by
            intro hin
            have hms := hmemIff.mp hin
            rw [hm] at hms
            exact absurd hms (by simp)
          have h0 : s.resolutions.count p = 0 := List.count_eq_zero.mpr hnotin
          simp [h0]
        · simp [hpd, Nat.le_of_lt_succ, hc]
      · rw [hr, hmm]
        by_cases hpd : p = dp
        · subst hpd
          rcases hres : mk (schemaRef p) with _ | w
          · rw [hres] at hp
            exact absurd hp (by simp)
          · simp [memoLookup]
        · have hdp' : ¬ dp = p := fun hh => hpd hh.symm
          rcases hres : mk (schemaRef dp) with _ | w
          · simp [hpd, hmemIff]
          · simp [memoLookup, hpd, hdp', hmemIff]
    · intro p hp
      rw [hmm]
      rcases hres : mk (schemaRef dp) with _ | w
      · exact h5 p hp
      · have hdp' : ¬ dp = p := by
          intro hEq
          rw [hEq, hp] at hres
          cases hres
        simp [memoLookup, hdp', h5 p hp]

theorem noPackInv_runCalls {V : Type} (mk : String → Option (Validator V))
    (calls : List (String × V)) (s : NoPackState V) (h : NoPackInv mk s) :
    NoPackInv mk (runCalls mk s calls) := by
  induction calls generalizing s with
  | nil => exact h
  | cons c rest ih => exact ih _ (noPackInv_step mk c.1 s c.2 h)

/-- A decode call never erases past resolutions. -/
theorem resolutions_monotone {V : Type} (mk : String → Option (Validator V))
    (calls : List (String × V)) (s : NoPackState V) (h : s.resolutions ≠ []) :
    (runCalls mk s calls).resolutions ≠ [] := by
  induction calls generalizing s with
  | nil => exact h
  | cons c rest ih =>
      apply ih
      unfold callDecodeNoPack lazyAjvStep
      rcases hm : memoLookup s.memo c.1 with _ | v
      · rcases he : s.engine with _ | e <;> simp only [he] <;> split <;> simp
      · exact h

/-- One decode call's effect on the resolution count of an unresolvable
path: a call to that very path always logs one more resolution (nothing is
cached), a call to any other path leaves its count unchanged. -/
theorem callDecode_count_unres {V : Type} (mk : String → Option (Validator V))
    (dp p : String) (s : NoPackState V) (j : V)
    (hp : mk (schemaRef p) = none) (hinv : NoPackInv mk s) :
    (callDecodeNoPack mk dp s j).1.resolutions.count p =
      s.resolutions.count p + (if p = dp then 1 else 0) := by
  obtain ⟨h1, h2, h3, h4, h5⟩ := hinv
  rcases callDecode_next mk dp s j h3 with ⟨heq, hsome⟩ | ⟨hm, he, hb, hr, hmm⟩
  · rw [heq]
    have hdp : ¬ p = dp := by
      intro hEq
      rw [← hEq, h5 p hp] at hsome
      exact absurd hsome (by simp)
    simp [hdp]
  · rw [hr, List.count_append]
    by_cases hpd : p = dp <;> simp [hpd]

theorem runCalls_count_unres {V : Type} (mk : String → Option (Validator V))
    (p : String) (hp : mk (schemaRef p) = none)
    (calls : List (String × V)) (s : NoPackState V) (hinv : NoPackInv mk s) :
    (runCalls mk s calls).resolutions.count p =
      s.resolutions.count p + (calls.map Prod.fst).count p := by
  induction calls generalizing s with
  | nil => simp [runCalls]
  | cons c rest ih =>
      obtain ⟨dp, j⟩ := c
      have hstep :
          (runCalls mk s ((dp, j) :: rest)).resolutions =
            (runCalls mk (callDecodeNoPack mk dp s j).1 rest).resolutions := rfl
      rw [hstep, ih _ (noPackInv_step mk dp s j hinv),
        callDecode_count_unres mk dp p s j hp hinv, List.map_cons, List.count_cons]
      by_cases hpd : p = dp
      · subst hpd
        simp only [beq_self_eq_true, if_true, ite_true]
        omega
      · have hdp' : ¬ (dp = p) := fun hh => hpd hh.symm
        simp only [hpd, beq_iff_eq, hdp', if_false, ite_false, if_neg]
        omega

/--
Claim C7, counterexample.  The claim says each decode function resolves
its validator at most once, memoizing it.  The generated guard
`if (!validator)` never caches a falsy result, and `getSchema` returns
`undefined` for a ref that misses the embedded schema — which the
generator itself produces, since the registry passes the canonical *name*
(`Foo`) while the embedded schema is keyed by the definition *key*
(`foo`).  Against such an engine, two calls to the same decode function
log two resolutions: strictly more than the claimed at-most-one.
-/
theorem noPack_memo_cex :
    ¬ ((runCalls fooKeyEngine (initNoPackState Nat)
        [("Foo", 0), ("Foo", 0)]).resolutions.count "Foo" ≤ 1) := by
  decide

/--
Claim C7, amended.  In unpacked mode, for every engine factory and every
sequence of decode calls against a freshly loaded module: (a) the shared
validation engine is constructed at most once per module lifetime — zero
constructions with no decode call, exactly one otherwise (lazily, on the
first call), regardless of call volume; (b) a decode function whose
schema ref *resolves* (`getSchema` returns a validator) resolves it at
most once and memoizes it; but (c) a decode function whose ref does *not*
resolve (`getSchema` returns `undefined` — e.g. whenever its canonical
name differs from its definition key, since the registry passes the name
while the embedded schema is keyed by the key) re-resolves on every
single call: its resolution count equals its call count.
-/
theorem noPack_engine_memo {V : Type} (mk : String → Option (Validator V))
    (calls : List (String × V)) :
    (runCalls mk (initNoPackState V) calls).engineBuilds =
      (if calls.isEmpty then 0 else 1) ∧
    (∀ p, (mk (schemaRef p)).isSome →
        (runCalls mk (initNoPackState V) calls).resolutions.count p ≤ 1) ∧
    (∀ p, mk (schemaRef p) = none →
        (runCalls mk (initNoPackState V) calls).resolutions.count p =
          (calls.map Prod.fst).count p) := by
  have hinv := noPackInv_runCalls mk calls _ (noPackInv_init mk)
  obtain ⟨h1, h2, _, h4, _⟩ := hinv
  refine ⟨?_, ?_, ?_⟩
  · rcases calls with _ | ⟨⟨dp, j⟩, rest⟩
    · simp [runCalls, initNoPackState]
    · have hne : (runCalls mk (initNoPackState V) ((dp, j) :: rest)).resolutions ≠ [] := by
        show (runCalls mk (callDecodeNoPack mk dp (initNoPackState V) j).1 rest).resolutions ≠ []
        apply resolutions_monotone
        unfold callDecodeNoPack lazyAjvStep
        simp only [initNoPackState, memoLookup]
        split <;> simp
      rw [h1, if_pos (h2.mpr hne)]
      simp
  · intro p hp
    exact (h4 p hp).1
  · intro p hp
    have := runCalls_count_unres mk p hp calls (initNoPackState V) (noPackInv_init mk)
    simpa [initNoPackState] using this

/-- Claim C7, witness.  The amended theorem at the generator's own
name/key mismatch (definition key `foo`, canonical name `Foo`): the
decode function for `Foo` resolves on both of its calls. -/
theorem noPack_engine_memo_witness :
    (runCalls fooKeyEngine (initNoPackState Nat)
        [("Foo", 0), ("foo", 1), ("Foo", 2)]).resolutions.count "Foo" =
      (([("Foo", (0 : Nat)), ("foo", 1), ("Foo", 2)].map Prod.fst).count "Foo") :=
  (noPack_engine_memo fooKeyEngine [("Foo", 0), ("foo", 1), ("Foo", 2)]).2.2 "Foo"
    (by simp [fooKeyEngine, schemaRef])


/-! ## Stripping the empty container interface

src/index.ts line 118:
`model.replace(/export\s+interface\s+GeneratedContainerSchema\s+{[^\}]*\}/, '')`
— a first-match textual removal (no `g` flag) of the placeholder container
type that the schema→type-text translator always emits.  We implement the
concrete regex as a matcher over character lists: the literals `export`,
`interface`, `GeneratedContainerSchema` separated by nonempty whitespace
runs, then a brace-delimited body containing no closing brace. -/

/-- The opening curly brace. -/
def lbrace : Char := Char.ofNat 123

/-- The closing curly brace. -/
def rbrace : Char := Char.ofNat 125

/-- Match a literal character sequence, returning the remainder. -/
def matchLit : List Char → List Char → Option (List Char)
  | [], l => some l
  | _ :: _, [] => none
  | c :: ps, d :: l => if d = c then matchLit ps l else none

/-- Match `\s+`: one or more whitespace characters (ASCII whitespace
model of the JS `\s` class), returning the remainder. -/
def matchWs1 : List Char → Option (List Char)
  | [] => none
  | c :: l => if c.isWhitespace then some (l.dropWhile Char.isWhitespace) else none

/-- Match `[^\}]*\}`: everything up to and including the first closing
brace. -/
def matchBody (l : List Char) : Option (List Char) :=
  match l.dropWhile (fun c => c != rbrace) with
  | [] => none
  | c :: rest => if c = rbrace then some rest else none

/-- Try to match the whole container-interface regex at the head of the
list, returning the text after the match. -/
def tryMatchContainer (l : List Char) : Option (List Char) :=
  (matchLit "export".data l).bind fun l₁ =>
  (matchWs1 l₁).bind fun l₂ =>
  (matchLit "interface".data l₂).bind fun l₃ =>
  (matchWs1 l₃).bind fun l₄ =>
  (matchLit "GeneratedContainerSchema".data l₄).bind fun l₅ =>
  (matchWs1 l₅).bind fun l₆ =>
  (matchLit [lbrace] l₆).bind fun l₇ =>
  matchBody l₇

/-- Model of `String.prototype.replace` with the container regex and replacement
`''`: scan left to right, delete the first match, keep everything else. -/
def replaceContainer : List Char → List Char
  | [] => []
  | c :: rest =>
    match tryMatchContainer (c :: rest) with
    | some remaining => remaining
    | none => c :: replaceContainer rest

/-- The `cleanModel` transformation of src/index.ts line 118. -/
def stripContainer (s : String) : String :=
  ⟨replaceContainer s.data⟩

/-- The text matched by the container regex: `export`, `interface`,
`GeneratedContainerSchema` separated by whitespace runs `w₁ w₂ w₃`, then a
braced body. -/
def containerDeclWith (w₁ w₂ w₃ body : String) : String :=
  "export" ++ w₁ ++ "interface" ++ w₂ ++ "GeneratedContainerSchema" ++ w₃ ++
    String.singleton lbrace ++ body ++ String.singleton rbrace

theorem matchLit_append (p X : List Char) : matchLit p (p ++ X) = some X := by
  induction p with
  | nil => rfl
  | cons c ps ih => simp [matchLit, ih]

theorem dropWhile_run {p : Char → Bool} (w : List Char) (c : Char) (X : List Char)
    (hw : ∀ x ∈ w, p x) (hc : p c = false) :
    List.dropWhile p (w ++ c :: X) = c :: X := by
  induction w with
  | nil => simp [List.dropWhile_cons, hc]
  | cons a as ih =>
      have ha : p a := hw a (by simp)
      simp only [List.cons_append, List.dropWhile_cons, ha, if_pos]
      exact ih (fun x hx => hw x (by simp [hx]))

theorem matchWs1_run (w : List Char) (c : Char) (X : List Char)
    (hne : w ≠ []) (hw : ∀ x ∈ w, x.isWhitespace) (hc : c.isWhitespace = false) :
    matchWs1 (w ++ c :: X) = some (c :: X) := by
  rcases w with _ | ⟨a, as⟩
  · exact absurd rfl hne
  · have ha : a.isWhitespace := hw a (by simp)
    simp only [List.cons_append, matchWs1, ha, if_pos]
    rw [dropWhile_run as c X (fun x hx => hw x (by simp [hx])) hc]

theorem matchBody_run (body : List Char) (X : List Char)
    (hb : ∀ c ∈ body, c ≠ rbrace) :
    matchBody (body ++ rbrace :: X) = some X := by
  unfold matchBody
  rw [dropWhile_run body rbrace X
    (fun x hx => by simpa using hb x hx) (by simp)]
  simp

theorem dropWhile_reach {p : Char → Bool} (w X : List Char)
    (hw : ∀ x ∈ w, p x) (hX : ∀ c, X.head? = some c → p c = false) :
    List.dropWhile p (w ++ X) = X := by
  induction w with
  | nil =>
      rcases X with _ | ⟨c, X'⟩
      · rfl
      · simp [List.dropWhile_cons, hX c rfl]
  | cons a as ih =>
      have ha : p a := hw a (by simp)
      simp only [List.cons_append, List.dropWhile_cons, ha, if_pos]
      exact ih (fun x hx => hw x (by simp [hx]))

theorem matchWs1_reach (w X : List Char)
    (hne : w ≠ []) (hw : ∀ x ∈ w, x.isWhitespace)
    (hX : ∀ c, X.head? = some c → c.isWhitespace = false) :
    matchWs1 (w ++ X) = some X := by
  rcases w with _ | ⟨a, as⟩
  · exact absurd rfl hne
  · have ha : a.isWhitespace := hw a (by simp)
    simp only [List.cons_append, matchWs1, ha, if_pos]
    rw [dropWhile_reach as X (fun x hx => hw x (by simp [hx])) hX]

theorem tryMatch_decl (w₁ w₂ w₃ body X : List Char)
    (hw₁ne : w₁ ≠ []) (hw₁ : ∀ x ∈ w₁, x.isWhitespace)
    (hw₂ne : w₂ ≠ []) (hw₂ : ∀ x ∈ w₂, x.isWhitespace)
    (hw₃ne : w₃ ≠ []) (hw₃ : ∀ x ∈ w₃, x.isWhitespace)
    (hb : ∀ c ∈ body, c ≠ rbrace) :
    tryMatchContainer ("export".data ++ (w₁ ++ ("interface".data ++ (w₂ ++
      ("GeneratedContainerSchema".data ++ (w₃ ++
        (lbrace :: (body ++ (rbrace :: X))))))))) = some X := by
  unfold tryMatchContainer
  rw [matchLit_append]
  simp only [Option.some_bind]
  rw [matchWs1_reach w₁ _ hw₁ne hw₁ (by intro c hc; cases hc; decide)]
  simp only [Option.some_bind]
  rw [matchLit_append]
  simp only [Option.some_bind]
  rw [matchWs1_reach w₂ _ hw₂ne hw₂ (by intro c hc; cases hc; decide)]
  simp only [Option.some_bind]
  rw [matchLit_append]
  simp only [Option.some_bind]
  rw [matchWs1_reach w₃ _ hw₃ne hw₃ (by intro c hc; cases hc; decide)]
  simp only [Option.some_bind]
  have hlit : matchLit [lbrace] (lbrace :: (body ++ (rbrace :: X))) =
      some (body ++ (rbrace :: X)) := by
    simp [matchLit]
  rw [hlit]
  simp only [Option.some_bind]
  exact matchBody_run body X hb

/-- Scanning text in which no match starts leaves it untouched. -/
theorem replaceContainer_skip (m₁ rest : List Char)
    (H : ∀ s ∈ m₁.tails, s ≠ [] → tryMatchContainer (s ++ rest) = none) :
    replaceContainer (m₁ ++ rest) = m₁ ++ replaceContainer rest := by
  induction m₁ with
  | nil => simp
  | cons c m ih =>
      have hc : tryMatchContainer (c :: (m ++ rest)) = none := by
        have h0 := H (c :: m) (by simp [List.tails_cons]) (by simp)
        rwa [List.cons_append] at h0
      rw [List.cons_append]
      simp only [replaceContainer, hc]
      rw [ih (fun s hs hne => H s (by simp [List.tails_cons, hs]) hne)]
      simp

/-- At a matching position, `replace` deletes the matched text. -/
theorem replaceContainer_hit (l rest : List Char) (c : Char) (l' : List Char)
    (hl : l = c :: l') (h : tryMatchContainer l = some rest) :
    replaceContainer l = rest := by
  subst hl
  simp only [replaceContainer, h]

/--
Claim C8.  The `cleanModel` step (src/index.ts line 118) — applied before
the packed/unpacked branch, hence to the final module text of *both*
modes — removes the placeholder `GeneratedContainerSchema` container
interface from the translator's type text by a textual pattern match on
its declaration: for any model text `m₁ ++ decl ++ m₂` in which the
declaration (`export`/`interface`/`GeneratedContainerSchema` separated by
whitespace, with a body containing no closing brace — the always-empty
container) occurs exactly there and no match starts earlier, the result is
exactly `m₁ ++ m₂`: the container type declaration is gone from the
output.
-/
theorem stripContainer_removes (m₁ w₁ w₂ w₃ body m₂ : String)
    (hw₁ne : w₁ ≠ "") (hw₁ : ∀ x ∈ w₁.data, x.isWhitespace)
    (hw₂ne : w₂ ≠ "") (hw₂ : ∀ x ∈ w₂.data, x.isWhitespace)
    (hw₃ne : w₃ ≠ "") (hw₃ : ∀ x ∈ w₃.data, x.isWhitespace)
    (hb : ∀ c ∈ body.data, c ≠ rbrace)
    (hfirst : ∀ s ∈ m₁.data.tails, s ≠ [] →
        tryMatchContainer (s ++ ((containerDeclWith w₁ w₂ w₃ body).data ++ m₂.data)) = none) :
    stripContainer (m₁ ++ containerDeclWith w₁ w₂ w₃ body ++ m₂) = m₁ ++ m₂ := by
  have hshape : (containerDeclWith w₁ w₂ w₃ body).data ++ m₂.data =
      "export".data ++ (w₁.data ++ ("interface".data ++ (w₂.data ++
        ("GeneratedContainerSchema".data ++ (w₃.data ++
          (lbrace :: (body.data ++ (rbrace :: m₂.data)))))))) := by
    simp [containerDeclWith, String.singleton, List.append_assoc]
  have hw₁ne' : w₁.data ≠ [] := fun h => hw₁ne (by
    cases w₁; simp_all)
  have hw₂ne' : w₂.data ≠ [] := fun h => hw₂ne (by
    cases w₂; simp_all)
  have hw₃ne' : w₃.data ≠ [] := fun h => hw₃ne (by
    cases w₃; simp_all)
  have hmatch : tryMatchContainer ((containerDeclWith w₁ w₂ w₃ body).data ++ m₂.data) =
      some m₂.data := by
    rw [hshape]
    exact tryMatch_decl w₁.data w₂.data w₃.data body.data m₂.data
      hw₁ne' hw₁ hw₂ne' hw₂ hw₃ne' hw₃ hb
  have hdata : (m₁ ++ containerDeclWith w₁ w₂ w₃ body ++ m₂).data =
      m₁.data ++ ((containerDeclWith w₁ w₂ w₃ body).data ++ m₂.data) := by
    simp [List.append_assoc]
  have hdecl : ∃ c l', (containerDeclWith w₁ w₂ w₃ body).data ++ m₂.data = c :: l' := by
    rw [hshape]
    exact ⟨'e', _, rfl⟩
  obtain ⟨c, l', hcl⟩ := hdecl
  unfold stripContainer
  rw [hdata, replaceContainer_skip _ _ hfirst, replaceContainer_hit _ _ c l' hcl hmatch]
  apply congrArg
  simp

/-- Claim C8, witness.  Stripping a concrete translator output: a banner
comment, the empty container declaration, and a real interface; the
container disappears and the rest is untouched. -/
theorem stripContainer_removes_witness :
    stripContainer ("/* tslint */\n" ++ containerDeclWith " " " " " " "\n  [k: string]: any;\n"
        ++ "\nexport interface Foo " ) = "/* tslint */\n" ++ "\nexport interface Foo " :=
  stripContainer_removes "/* tslint */\n" " " " " " " "\n  [k: string]: any;\n"
    "\nexport interface Foo "
    (by decide) (by decide) (by decide) (by decide) (by decide) (by decide)
    (by decide) (by decide)

/-! ## The generator: data model, templates, orchestrator

`generate` (src/index.ts lines 56–135).  External collaborators —
`ajv-pack` compilation, `json-schema-to-typescript`, `prettier` — are kept
abstract as an `Externals` record of pure functions; everything else is
transcribed from the source. -/

/-- One schema definition node: its optional `title` (used for naming) and
the rest of its JSON text (opaque to the generator). -/
structure Definition where
  title : Option String
  body : String
deriving DecidableEq, Repr

/-- The input schema document: the `definitions` member (`none` models an
absent member; entries in `Object.keys` insertion order) and all other
top-level members (opaque key/text pairs). -/
structure Schema where
  definitions : Option (List (String × Definition))
  extra : List (String × String)
deriving DecidableEq, Repr

/-- The recognized options object (src/index.ts lines 13–18).  The opaque
option payloads (`style`, `ajvOptions`) are carried as their JSON texts. -/
structure Options where
  style : Option String
  ajvOptions : Option String
  decoderName : Option String
  pack : Option Bool
deriving DecidableEq, Repr

/-- The external collaborators: `pack(ajv, validate)` for a definition key
given the registered definitions, `json-schema-to-typescript` (fixed
container name `GeneratedContainerSchema`, `unreachableDefinitions: true`,
given the schema and style), and `prettier.format` (given the code and
style). -/
structure Externals where
  ajvPack : List (String × Definition) → String → String
  toTypescript : Schema → Option String → String
  prettify : String → Option String → String

/-- Model of `const validatorFilePostfix = '.validate.js'` (src/index.ts line 11). -/
def validatorFilePostfix : String := ".validate.js"

/-- Model of `path.join(outputFolder, file)`. -/
def joinPath (a b : String) : String := a ++ "/" ++ b

/-- Model of `path.basename`: the last nonempty `/`-separated component. -/
def basename (p : String) : String :=
  match ((p.splitOn "/").filter (fun s => s ≠ "")).getLast? with
  | some s => s
  | none => ""

/-- Model of `JSON.stringify(schema)` for the rebuilt `{ definitions }` document
(embedded in the unpacked template, src/index.ts line 167). -/
def schemaJson (s : Schema) : String :=
  "\x7b\"definitions\":" ++
    (match s.definitions with
     | none => "null"
     | some defs => "\x7b" ++
         String.intercalate ","
           (defs.map (fun kv => "\"" ++ kv.1 ++ "\":" ++ kv.2.body)) ++ "\x7d") ++
  "\x7d"

/-- The import line recorded for one packed artifact (src/index.ts
line 102): `import * as <Name>$validate from './<Name>.validate.js'`. -/
def importLineFor (name : String) : String :=
  "import * as " ++ name ++ "$validate from './" ++ name ++ validatorFilePostfix ++ "'"

/-- Model of `decoderPack` (src/index.ts lines 141–143). -/
def decoderPack (name : String) : String :=
  "static " ++ name ++ " = decode<" ++ name ++ ">(" ++ name ++ "$validate, '" ++
    name ++ "');"

/-- Model of `decoderNoPack` (src/index.ts lines 145–147). -/
def decoderNoPack (name : String) : String :=
  "static " ++ name ++ " = decode<" ++ name ++ ">('" ++ name ++ "');"

/-- Model of `decoder` (src/index.ts lines 209–224): the error class and the
registry class holding the decode declarations. -/
def decoderTemplate (decoders : String) (decoderName : String) : String :=
  "\nexport class " ++ decoderName ++ "Error extends Error \x7b\n" ++
  "  readonly json: any;\n\n" ++
  "  constructor(message: string, json: any) \x7b\n" ++
  "    super(message);\n" ++
  "    this.json = json;\n" ++
  "  \x7d\n" ++
  "\x7d\n\n" ++
  "export class " ++ decoderName ++ " \x7b\n" ++
  "  " ++ decoders ++ "\n" ++
  "\x7d\n"

/-- Model of `templateNoPack` (src/index.ts lines 149–185). -/
def templateNoPack (models decoders decoderName : String) (schema : Schema)
    (ajvOptions : Option String) : String :=
  "\n/* tslint:disable */\nimport * as Ajv from 'ajv';\n\n" ++ models ++
  "\n\nlet ajv: Ajv.Ajv;\n\nfunction lazyAjv() \x7b\n  if (!ajv) \x7b\n    ajv = new Ajv(" ++
  ajvOptions.getD "\x7b\x7d" ++
  ");\n    ajv.addSchema(schema, 'schema');\n  \x7d\n\n  return ajv;\n\x7d\n\nconst schema = " ++
  schemaJson schema ++
  ";\nfunction decode<T>(dataPath: string): (json: any) => T \x7b\n" ++
  "  let validator: Ajv.ValidateFunction;\n  return (json: any) => \x7b\n" ++
  "    if (!validator) \x7b\n      validator = lazyAjv().getSchema(`schema#/definitions/$\x7bdataPath\x7d`);\n    \x7d\n\n" ++
  "    if (!validator(json)) \x7b\n      const errors = validator.errors || [];\n" ++
  "      const errorMessage = errors.map(error => `$\x7berror.dataPath\x7d $\x7berror.message\x7d`.trim()).join(', ') || 'unknown';\n" ++
  "      throw new " ++ decoderName ++
  "Error(`Error validating $\x7bdataPath\x7d: $\x7berrorMessage\x7d`, json);\n    \x7d\n  \n    return json as T;\n  \x7d\n\x7d\n" ++
  decoderTemplate decoders decoderName

/-- Model of `templatePack` (src/index.ts lines 187–207). -/
def templatePack (models imports decoders decoderName : String) : String :=
  "\n/* tslint:disable */\n" ++ imports ++ "\n\n" ++ models ++
  "\n\nfunction decode<T>(validator: (json: any) => boolean, dataPath: string): (json: any) => T \x7b\n" ++
  "  return (json: any) => \x7b\n    if (!validator(json)) \x7b\n" ++
  "      const errors: any[] = ((validator as any).errors as any) || [];\n" ++
  "      const errorMessage = errors.map(error => `$\x7berror.dataPath\x7d $\x7berror.message\x7d`.trim()).join(', ') || 'unknown';\n" ++
  "      throw new " ++ decoderName ++
  "Error(`Error validating $\x7bdataPath\x7d: $\x7berrorMessage\x7d`, json);\n    \x7d\n  \n    return json as T;\n  \x7d\n\x7d\n\n" ++
  decoderTemplate decoders decoderName

/-- Result of the per-definition loop (src/index.ts lines 85–110): the
filesystem and trace after the issued artifact writes, the first write
rejection if any (surfaced by `await Promise.all`), and the collected
declaration lines (imports and decoders). -/
structure LoopOut where
  fs : FS
  trace : List Ev
  err : Option String
  imports : List String
  decoders : List String

/-- The packed-mode branch of the loop: for each definition, resolve the
name, record the import and decoder lines, compile the standalone
validator module and issue its idempotent write. -/
def runPackedLoop (ext : Externals) (allDefs : List (String × Definition))
    (outputFolder : String) : FS → List (String × Definition) → LoopOut
  | fs, [] => ⟨fs, [], none, [], []⟩
  | fs, (key, d) :: rest =>
      let name := resolveName key d.title
      let w := writeFilePromise fs (joinPath outputFolder (name ++ validatorFilePostfix))
        (ext.ajvPack allDefs key)
      let r := runPackedLoop ext allDefs outputFolder w.1 rest
      ⟨r.fs, w.2.1 ++ r.trace, w.2.2 <|> r.err,
        importLineFor name :: r.imports, decoderPack name :: r.decoders⟩

/-- Result of a `generate` run: the final filesystem, the I/O event trace,
and the error it rejects with, if any. -/
structure GenResult where
  fs : FS
  trace : List Ev
  err : Option String
deriving Repr

/--
Model of `generate` (src/index.ts lines 56–135), with filesystem state and event
trace made explicit:

* line 61 — the schema is rebuilt as `{ definitions: schema.definitions }`,
  discarding every other top-level member;
* line 63 — `pack` defaults to `true`;
* lines 65–71 — create the output folder when absent; fail when the path is
  not a directory;
* lines 73–75 — fail when `definitions` is absent or empty;
* lines 85–112 — packed mode: issue the per-definition artifact writes and
  suspend on them (`await Promise.all`) before anything else; unpacked
  mode: only collect decoder lines;
* lines 114–134 — obtain the type text, strip the container interface,
  derive the decoder name (`options.decoderName || <Basename>Decoder`; the
  JS `||` falls through on an empty-string name), instantiate the mode's
  template, prettify, and write the final `index.ts`.

`generateBody` is the part of the run after the folder handling and the
definitions check (lines 77–135); `generate` performs the entry steps
(lines 61–75) and delegates to it. -/
def generateBody (ext : Externals) (fs₁ : FS) (defs : List (String × Definition))
    (outputFolder : String) (options : Options) : GenResult :=
  let schema : Schema := { definitions := some defs, extra := [] }
  let packMode := options.pack.getD true
  let loop : LoopOut :=
    if packMode then runPackedLoop ext defs outputFolder fs₁ defs
    else ⟨fs₁, [], none, [],
      defs.map (fun kv => decoderNoPack (resolveName kv.1 kv.2.title))⟩
  match loop.err with
  | some e => ⟨loop.fs, loop.trace, some e⟩
  | none =>
    let model := ext.toTypescript schema options.style
    let cleanModel := stripContainer model
    let decoderName :=
      match options.decoderName with
      | some n => if n = "" then toSafeString (basename outputFolder) ++ "Decoder" else n
      | none => toSafeString (basename outputFolder) ++ "Decoder"
    let code :=
      if packMode then
        templatePack cleanModel (String.intercalate "\n" loop.imports)
          (String.intercalate "\n" loop.decoders) decoderName
      else
        templateNoPack cleanModel (String.intercalate "\n" loop.decoders)
          decoderName schema options.ajvOptions
    let prettyCode := ext.prettify code options.style
    let w := writeFilePromise loop.fs (joinPath outputFolder "index.ts") prettyCode
    ⟨w.1, loop.trace ++ w.2.1, w.2.2⟩

def generate (ext : Externals) (fs₀ : FS) (schema₀ : Schema)
    (outputFolder : String) (options : Options) : GenResult :=
  let schema : Schema := { definitions := schema₀.definitions, extra := [] }
  let dirStep : FS × List Ev :=
    if existsSyncFs fs₀ outputFolder then (fs₀, [])
    else (fsSet fs₀ outputFolder FsNode.dir, [Ev.mkdirEv outputFolder])
  let fs₁ := dirStep.1
  let tr₁ := dirStep.2
  if isDirectoryFs fs₁ outputFolder = false then
    ⟨fs₁, tr₁, some ("Output folder " ++ outputFolder ++ " should be a directory")⟩
  else
    match schema.definitions with
    | none => ⟨fs₁, tr₁, some "No definitions found"⟩
    | some defs =>
      if defs.length = 0 then ⟨fs₁, tr₁, some "No definitions found"⟩
      else
        let r := generateBody ext fs₁ defs outputFolder options
        ⟨r.fs, tr₁ ++ r.trace, r.err⟩

/-- Trivial external collaborators, used to run `generate` at concrete
inputs. -/
def extTriv : Externals :=
  ⟨fun _ _ => "", fun _ _ => "", fun s _ => s⟩

/-- Empty options object (`generate(schema, folder)` with `options`
omitted). -/
def optsNone : Options := ⟨none, none, none, none⟩

/-! ### Helper lemmas about paths, the writer and the loop -/

/-- Joining a file name onto a folder never gives back the folder itself. -/
theorem joinPath_ne (a b : String) : joinPath a b ≠ a := by
  intro h
  have hlen := congrArg String.length h
  have h1 : ("/" : String).length = 1 := rfl
  simp only [joinPath, String.length_append, h1] at hlen
  omega

/-- An artifact path never collides with the final module path. -/
theorem artifactPath_ne_index (out name : String) :
    joinPath out (name ++ validatorFilePostfix) ≠ joinPath out "index.ts" := by
  intro h
  have hlen := congrArg String.length h
  have h1 : ("/" : String).length = 1 := rfl
  have h12 : validatorFilePostfix.length = 12 := rfl
  have h8 : ("index.ts" : String).length = 8 := rfl
  simp only [joinPath, String.length_append, h1, h12, h8] at hlen
  omega

/-- The output folder path itself never collides with the final module
path. -/
theorem out_ne_index (out : String) : out ≠ joinPath out "index.ts" :=
  fun h => joinPath_ne out "index.ts" h.symm

/-- The writer leaves every other path untouched. -/
theorem writeFilePromise_lookup_other (fs : FS) (f d q : String) (h : f ≠ q) :
    fsLookup (writeFilePromise fs f d).1 q = fsLookup fs q := by
  unfold writeFilePromise
  rcases hc : fsLookup fs f with _ | n
  · simp [fsLookup_fsSet, h]
  · cases n with
    | file c => by_cases hcd : c = d <;> simp [hcd, fsLookup_fsSet, h]
    | dir => simp

/-- Every event of one writer call is on the written path. -/
theorem writeFilePromise_ev_path (fs : FS) (f d : String) :
    ∀ e ∈ (writeFilePromise fs f d).2.1, e.path = f := by
  unfold writeFilePromise
  rcases hc : fsLookup fs f with _ | n
  · simp [Ev.path]
  · cases n with
    | file c =>
        by_cases hcd : c = d <;> simp [hcd, Ev.path]
    | dir => simp [Ev.path]

/-- The path of a write-call event, if it is one. -/
def evWriteCallPath : Ev → Option String
  | Ev.writeCallEv p => some p
  | _ => none

/-- One writer call issues exactly one write call, on its path. -/
theorem writeFilePromise_writeCalls (fs : FS) (f d : String) :
    (writeFilePromise fs f d).2.1.filterMap evWriteCallPath = [f] := by
  unfold writeFilePromise
  rcases hc : fsLookup fs f with _ | n
  · simp [evWriteCallPath]
  · cases n with
    | file c => by_cases hcd : c = d <;> simp [hcd, evWriteCallPath]
    | dir => simp [evWriteCallPath]

/-- The loop leaves the output-folder path itself untouched. -/
theorem runPackedLoop_lookup_out (ext : Externals) (allDefs : List (String × Definition))
    (out : String) (defs : List (String × Definition)) (fs : FS) :
    fsLookup (runPackedLoop ext allDefs out fs defs).fs out = fsLookup fs out := by
  induction defs generalizing fs with
  | nil => rfl
  | cons kv rest ih =>
      obtain ⟨key, d⟩ := kv
      simp only [runPackedLoop]
      rw [ih]
      exact writeFilePromise_lookup_other _ _ _ _ (joinPath_ne out _)

/-- The loop's write calls: exactly one per definition, on the artifact
path derived from the definition's canonical name. -/
theorem runPackedLoop_writeCalls (ext : Externals) (allDefs : List (String × Definition))
    (out : String) (defs : List (String × Definition)) (fs : FS) :
    (runPackedLoop ext allDefs out fs defs).trace.filterMap evWriteCallPath =
      defs.map (fun kv => joinPath out (resolveName kv.1 kv.2.title ++ validatorFilePostfix)) := by
  induction defs generalizing fs with
  | nil => rfl
  | cons kv rest ih =>
      obtain ⟨key, d⟩ := kv
      simp only [runPackedLoop, List.filterMap_append, List.map_cons]
      rw [ih, writeFilePromise_writeCalls]
      rfl

/-- The loop's recorded import and decoder declaration lines. -/
theorem runPackedLoop_lines (ext : Externals) (allDefs : List (String × Definition))
    (out : String) (defs : List (String × Definition)) (fs : FS) :
    (runPackedLoop ext allDefs out fs defs).imports =
      defs.map (fun kv => importLineFor (resolveName kv.1 kv.2.title)) ∧
    (runPackedLoop ext allDefs out fs defs).decoders =
      defs.map (fun kv => decoderPack (resolveName kv.1 kv.2.title)) := by
  induction defs generalizing fs with
  | nil => exact ⟨rfl, rfl⟩
  | cons kv rest ih =>
      obtain ⟨key, d⟩ := kv
      simp only [runPackedLoop, List.map_cons]
      exact ⟨by rw [(ih _).1], by rw [(ih _).2]⟩

/-- Every loop event is on an artifact path. -/
theorem runPackedLoop_ev_path (ext : Externals) (allDefs : List (String × Definition))
    (out : String) (defs : List (String × Definition)) (fs : FS) :
    ∀ e ∈ (runPackedLoop ext allDefs out fs defs).trace,
      ∃ name, e.path = joinPath out (name ++ validatorFilePostfix) := by
  induction defs generalizing fs with
  | nil => simp [runPackedLoop]
  | cons kv rest ih =>
      obtain ⟨key, d⟩ := kv
      simp only [runPackedLoop, List.mem_append]
      intro e he
      rcases he with he | he
      · exact ⟨resolveName key d.title, writeFilePromise_ev_path _ _ _ e he⟩
      · exact ih _ e he

/-- The body stage leaves the output-folder path itself untouched. -/
theorem generateBody_lookup_out (ext : Externals) (fs₁ : FS)
    (defs : List (String × Definition)) (out : String) (opts : Options) :
    fsLookup (generateBody ext fs₁ defs out opts).fs out = fsLookup fs₁ out := by
  unfold generateBody
  by_cases hpack : opts.pack.getD true
  · simp only [hpack, ite_true]
    split
    · exact runPackedLoop_lookup_out ext defs out defs fs₁
    · rw [writeFilePromise_lookup_other _ _ _ _ (joinPath_ne out "index.ts")]
      exact runPackedLoop_lookup_out ext defs out defs fs₁
  · simp only [hpack, Bool.false_eq_true, ite_false]
    exact writeFilePromise_lookup_other _ _ _ _ (joinPath_ne out "index.ts")

/-- In packed mode, a successful body stage issues exactly the
per-definition artifact write calls, in definition order, followed by the
single final module write call. -/
theorem generateBody_pack_writeCalls (ext : Externals) (fs₁ : FS)
    (defs : List (String × Definition)) (out : String) (opts : Options)
    (hpack : opts.pack.getD true = true)
    (hok : (generateBody ext fs₁ defs out opts).err = none) :
    (generateBody ext fs₁ defs out opts).trace.filterMap evWriteCallPath =
      defs.map (fun kv => joinPath out (resolveName kv.1 kv.2.title ++ validatorFilePostfix)) ++
        [joinPath out "index.ts"] := by
  unfold generateBody at hok ⊢
  simp only [hpack, ite_true] at hok ⊢
  split at hok
  · simp at hok
  · simp only [List.filterMap_append]
    rw [runPackedLoop_writeCalls, writeFilePromise_writeCalls]

/-- The body stage's trace splits into artifact events followed by
final-module events. -/
theorem generateBody_trace_split (ext : Externals) (fs₁ : FS)
    (defs : List (String × Definition)) (out : String) (opts : Options) :
    ∃ pre post, (generateBody ext fs₁ defs out opts).trace = pre ++ post ∧
      (∀ e ∈ pre, e.path ≠ joinPath out "index.ts") ∧
      (∀ e ∈ post, e.path = joinPath out "index.ts") := by
  have hloopPaths : ∀ e ∈ (runPackedLoop ext defs out fs₁ defs).trace,
      e.path ≠ joinPath out "index.ts" := by
    intro e he
    obtain ⟨name, hname⟩ := runPackedLoop_ev_path ext defs out defs fs₁ e he
    rw [hname]
    exact artifactPath_ne_index out name
  unfold generateBody
  by_cases hpack : opts.pack.getD true
  · simp only [hpack, ite_true]
    split
    · exact ⟨_, [], by simp, hloopPaths, by simp⟩
    · exact ⟨_, _, rfl, hloopPaths, writeFilePromise_ev_path _ _ _⟩
  · simp only [hpack, Bool.false_eq_true, ite_false]
    exact ⟨[], _, rfl, by simp, writeFilePromise_ev_path _ _ _⟩

/--
Claim C10.  The output of `generate` depends only on the `definitions`
member of the input schema (besides the externals, filesystem, output
folder and options): line 61 rebuilds the schema as
`{ definitions: schema.definitions }`, so two schema documents with equal
`definitions` produce identical runs — same files, same trace, same
error.
-/
theorem generate_definitions_only (ext : Externals) (fs : FS) (out : String)
    (opts : Options) (s₁ s₂ : Schema) (h : s₁.definitions = s₂.definitions) :
    generate ext fs s₁ out opts = generate ext fs s₂ out opts := by
  simp only [generate, h]

/-- Claim C10, witness.  Equal `definitions`, different other top-level
members: identical runs. -/
theorem generate_definitions_only_witness :
    generate extTriv [] ⟨some [("foo", ⟨none, "1"⟩)], [("$schema", "\"s\"")]⟩ "out" optsNone =
      generate extTriv [] ⟨some [("foo", ⟨none, "1"⟩)], []⟩ "out" optsNone :=
  generate_definitions_only extTriv [] "out" optsNone _ _ rfl

/--
Claim C1, counterexample.  A schema with zero definitions against an absent
output folder: `generate` does fail with `No definitions found`, but only
*after* `mkdirSync` has created the output directory (lines 65–67 run
before the definitions check at lines 73–75) — file-system creation
happens in the output location before the failure, contradicting the
claim's "before any file or directory is created".
-/
theorem generate_emptyDefs_cex :
    (generate extTriv [] ⟨some [], []⟩ "out" optsNone).err = some "No definitions found" ∧
    (generate extTriv [] ⟨some [], []⟩ "out" optsNone).trace = [Ev.mkdirEv "out"] ∧
    fsLookup (generate extTriv [] ⟨some [], []⟩ "out" optsNone).fs "out" = some FsNode.dir := by
  decide

/--
Claim C1, amended.  For every schema whose `definitions` member is absent or
empty, `generate` fails with a descriptive error before any *file* is
created or written — the trace carries no write call at all — but the
output *directory* itself may first be created by the folder-handling
step when it did not exist.
-/
theorem generate_emptyDefs_failfast (ext : Externals) (fs : FS) (schema : Schema)
    (out : String) (opts : Options)
    (h : schema.definitions = none ∨ schema.definitions = some []) :
    (generate ext fs schema out opts).err.isSome = true ∧
    ((generate ext fs schema out opts).trace = [] ∨
      (generate ext fs schema out opts).trace = [Ev.mkdirEv out]) := by
  unfold generate
  rcases h with h | h <;> rw [h] <;>
    by_cases hex : existsSyncFs fs out <;>
      simp only [hex, if_true, if_false, ite_true, ite_false] <;>
        split <;> (try split) <;> simp_all

/-- Claim C1, witness.  The amended theorem at a concrete input: absent
`definitions` member, existing output directory. -/
theorem generate_emptyDefs_failfast_witness :
    (generate extTriv [("out", FsNode.dir)] ⟨none, []⟩ "out" optsNone).err.isSome = true :=
  (generate_emptyDefs_failfast extTriv [("out", FsNode.dir)] ⟨none, []⟩ "out" optsNone
    (Or.inl rfl)).1

/--
Claim C9.  For every output folder path: if the path does not exist,
`generate` creates it as a directory (an `mkdirSync` event appears and the
final filesystem maps the path to a directory); if the path exists but is
a plain file, `generate` fails with the "should be a directory" error.
-/
theorem generate_outputFolder_spec (ext : Externals) (fs : FS) (schema : Schema)
    (out : String) (opts : Options) :
    (fsLookup fs out = none →
        fsLookup (generate ext fs schema out opts).fs out = some FsNode.dir ∧
        Ev.mkdirEv out ∈ (generate ext fs schema out opts).trace) ∧
    (∀ c, fsLookup fs out = some (FsNode.file c) →
        (generate ext fs schema out opts).err =
          some ("Output folder " ++ out ++ " should be a directory")) := by
  constructor
  · intro h
    have hex : existsSyncFs fs out = false := by simp [existsSyncFs, h]
    have hfs₁ : fsLookup (fsSet fs out FsNode.dir) out = some FsNode.dir := by
      simp [fsLookup_fsSet]
    have hdir : isDirectoryFs (fsSet fs out FsNode.dir) out = true := by
      simp [isDirectoryFs, hfs₁]
    unfold generate
    simp only [hex, Bool.false_eq_true, ite_false, hdir, Bool.true_eq_false]
    split
    · exact ⟨hfs₁, by simp⟩
    · split
      · exact ⟨hfs₁, by simp⟩
      · exact ⟨by rw [generateBody_lookup_out]; exact hfs₁, by simp⟩
  · intro c h
    have hex : existsSyncFs fs out = true := by simp [existsSyncFs, h]
    have hdir : isDirectoryFs fs out = false := by simp [isDirectoryFs, h]
    unfold generate
    simp only [hex, ite_true, hdir]

/-- Claim C9, witness.  The theorem at concrete inputs: a fresh folder is
created as a directory; an existing plain file at the folder path is
rejected. -/
theorem generate_outputFolder_spec_witness :
    fsLookup (generate extTriv [] ⟨some [("foo", ⟨none, "1"⟩)], []⟩ "out" optsNone).fs "out" =
      some FsNode.dir ∧
    (generate extTriv [("out", FsNode.file "z")] ⟨some [("foo", ⟨none, "1"⟩)], []⟩ "out"
        optsNone).err = some ("Output folder " ++ "out" ++ " should be a directory") :=
  ⟨((generate_outputFolder_spec extTriv [] ⟨some [("foo", ⟨none, "1"⟩)], []⟩ "out" optsNone).1
      rfl).1,
   (generate_outputFolder_spec extTriv [("out", FsNode.file "z")]
      ⟨some [("foo", ⟨none, "1"⟩)], []⟩ "out" optsNone).2 "z" rfl⟩

/--
Claim C6.  In packed mode, every per-definition artifact write operation
appears in the run's trace strictly before every operation on the final
module file: the trace splits as `pre ++ post` where `pre` holds no event
on `<out>/index.ts` (it holds the mkdir and all artifact writes, which the
orchestrator awaits via `Promise.all`) and `post` holds only events on
`<out>/index.ts` (the final module write, issued after the await).
-/
theorem generate_artifacts_before_module (ext : Externals) (fs : FS) (schema : Schema)
    (out : String) (opts : Options) (_hpack : opts.pack.getD true = true) :
    ∃ pre post, (generate ext fs schema out opts).trace = pre ++ post ∧
      (∀ e ∈ pre, e.path ≠ joinPath out "index.ts") ∧
      (∀ e ∈ post, e.path = joinPath out "index.ts") := by
  have htr₁ : ∀ (tr : List Ev), tr = [] ∨ tr = [Ev.mkdirEv out] →
      ∀ e ∈ tr, e.path ≠ joinPath out "index.ts" := by
    rintro tr (rfl | rfl) e he
    · simp at he
    · simp at he
      rw [he]
      exact out_ne_index out
  unfold generate
  by_cases hex : existsSyncFs fs out <;>
    simp only [hex, Bool.false_eq_true, ite_true, ite_false] <;>
      split
  · exact ⟨[], [], by simp, by simp, by simp⟩
  · split
    · exact ⟨[], [], by simp, by simp, by simp⟩
    · split
      · exact ⟨[], [], by simp, by simp, by simp⟩
      · rename_i defs hdefs hne
        obtain ⟨pre, post, heq, hpre, hpost⟩ :=
          generateBody_trace_split ext fs defs out opts
        exact ⟨pre, post, by simp [heq], hpre, hpost⟩
  · exact ⟨[Ev.mkdirEv out], [], by simp, htr₁ _ (Or.inr rfl), by simp⟩
  · split
    · exact ⟨[Ev.mkdirEv out], [], by simp, htr₁ _ (Or.inr rfl), by simp⟩
    · split
      · exact ⟨[Ev.mkdirEv out], [], by simp, htr₁ _ (Or.inr rfl), by simp⟩
      · rename_i defs hdefs hne
        obtain ⟨pre, post, heq, hpre, hpost⟩ :=
          generateBody_trace_split ext (fsSet fs out FsNode.dir) defs out opts
        refine ⟨Ev.mkdirEv out :: pre, post, by simp [heq], ?_, hpost⟩
        intro e he
        rcases List.mem_cons.mp he with rfl | he
        · exact out_ne_index out
        · exact hpre e he

/-- Claim C6, witness.  The decomposition at a concrete packed run. -/
theorem generate_artifacts_before_module_witness :
    ∃ pre post,
      (generate extTriv [] ⟨some [("foo", ⟨none, "1"⟩)], []⟩ "out" optsNone).trace =
        pre ++ post ∧
      (∀ e ∈ pre, e.path ≠ joinPath "out" "index.ts") ∧
      (∀ e ∈ post, e.path = joinPath "out" "index.ts") :=
  generate_artifacts_before_module extTriv [] ⟨some [("foo", ⟨none, "1"⟩)], []⟩ "out"
    optsNone rfl

/-- Artifact file paths are injective in the canonical name. -/
theorem artifactPath_inj (out : String) :
    Function.Injective (fun n => joinPath out (n ++ validatorFilePostfix)) := by
  intro a b h
  simp only [joinPath] at h
  have hd := congrArg String.data h
  simp only [String.data_append] at hd
  have h₁ := List.append_cancel_left (List.append_assoc _ _ _ ▸
    (List.append_assoc _ _ _ ▸ hd))
  have h₂ := List.append_cancel_left h₁
  exact String.ext (List.append_cancel_right h₂)

/--
Claim C5.  For every schema document with at least one definition, a
successful packed-mode `generate` issues exactly one validator-artifact
write per definition — on the path `<out>/<CanonicalName>.validate.js`,
in definition order — plus exactly one final module write (`index.ts`);
for each definition the recorded import line binds the artifact's export
to `<Name>$validate` and the recorded registry entry is
`static <Name> = decode<<Name>>(<Name>$validate, '<Name>');`.  When the
canonical names are pairwise distinct, the written file paths are pairwise
distinct too (one artifact file per definition plus the module file).
-/
theorem generate_packed_files (ext : Externals) (fs : FS) (schema : Schema)
    (out : String) (opts : Options) (defs : List (String × Definition))
    (hdefs : schema.definitions = some defs)
    (hpack : opts.pack.getD true = true)
    (hok : (generate ext fs schema out opts).err = none) :
    (generate ext fs schema out opts).trace.filterMap evWriteCallPath =
      defs.map (fun kv => joinPath out (resolveName kv.1 kv.2.title ++ validatorFilePostfix)) ++
        [joinPath out "index.ts"] ∧
    (∀ fsx, (runPackedLoop ext defs out fsx defs).imports =
        defs.map (fun kv => importLineFor (resolveName kv.1 kv.2.title))) ∧
    (∀ fsx, (runPackedLoop ext defs out fsx defs).decoders =
        defs.map (fun kv => decoderPack (resolveName kv.1 kv.2.title))) ∧
    ((defs.map (fun kv => resolveName kv.1 kv.2.title)).Nodup →
      (defs.map (fun kv =>
          joinPath out (resolveName kv.1 kv.2.title ++ validatorFilePostfix)) ++
        [joinPath out "index.ts"]).Nodup) := by
  refine ⟨?_, fun fsx => (runPackedLoop_lines ext defs out defs fsx).1,
    fun fsx => (runPackedLoop_lines ext defs out defs fsx).2, ?_⟩
  · unfold generate at hok ⊢
    rw [hdefs] at hok ⊢
    by_cases hex : existsSyncFs fs out <;>
      simp only [hex, Bool.false_eq_true, ite_true, ite_false] at hok ⊢ <;>
        split at hok
    · exact Option.noConfusion hok
    · rename_i hcond1
      split at hok
      · exact Option.noConfusion hok
      · rename_i hcond2
        rw [if_neg hcond1, if_neg hcond2]
        dsimp only
        simp only [List.filterMap_append]
        rw [generateBody_pack_writeCalls ext fs defs out opts hpack hok]
        rfl
    · exact Option.noConfusion hok
    · rename_i hcond1
      split at hok
      · exact Option.noConfusion hok
      · rename_i hcond2
        rw [if_neg hcond1, if_neg hcond2]
        dsimp only
        have hmk : List.filterMap evWriteCallPath ([Ev.mkdirEv out] : List Ev) = [] := rfl
        simp only [List.filterMap_append, hmk]
        rw [generateBody_pack_writeCalls ext (fsSet fs out FsNode.dir) defs out opts hpack hok]
        rfl
  · intro hnodup
    have hmap : defs.map (fun kv =>
        joinPath out (resolveName kv.1 kv.2.title ++ validatorFilePostfix)) =
        (defs.map (fun kv => resolveName kv.1 kv.2.title)).map
          (fun n => joinPath out (n ++ validatorFilePostfix)) := by
      rw [List.map_map]
      rfl
    rw [hmap]
    refine List.Nodup.append (hnodup.map (artifactPath_inj out)) (by simp) ?_
    intro a ha hb
    simp only [List.mem_map] at ha
    obtain ⟨n, _, hn⟩ := ha
    simp only [List.mem_singleton] at hb
    rw [hb] at hn
    exact artifactPath_ne_index out n hn

/-- Claim C5, witness.  The theorem at a concrete two-definition schema. -/
theorem generate_packed_files_witness :
    (generate extTriv [] ⟨some [("foo", ⟨none, "1"⟩), ("bar", ⟨some "my bar", "2"⟩)], []⟩
        "out" optsNone).trace.filterMap evWriteCallPath =
      ([("foo", (⟨none, "1"⟩ : Definition)), ("bar", ⟨some "my bar", "2"⟩)].map
        (fun kv => joinPath "out" (resolveName kv.1 kv.2.title ++ validatorFilePostfix))) ++
        [joinPath "out" "index.ts"] :=
  (generate_packed_files extTriv []
    ⟨some [("foo", ⟨none, "1"⟩), ("bar", ⟨some "my bar", "2"⟩)], []⟩ "out" optsNone
    [("foo", ⟨none, "1"⟩), ("bar", ⟨some "my bar", "2"⟩)] rfl rfl (by decide)).1

end JsonTsDecoder
